import Mathlib

/-!
Verification of the MedicalCodingSequence repository core
(TemporalRecord and TemporalSequencer) against its specification.

Python strings are modelled as lists of characters.  Python datetime
values are modelled by the structure DateTime below; a Python datetime
is always valid (its constructor checks the field ranges), which is
expressed by the predicate DateTime.Valid.  The pseudo-random
shuffle (random.shuffle) is modelled by an explicit shuffler function
passed as a parameter; claims quantify over it.
-/

/-- A Python datetime: year, month, day, hour, minute, second,
microsecond.  Field validity is tracked by DateTime.Valid. -/
structure DateTime where
  year : Nat
  month : Nat
  day : Nat
  hour : Nat
  minute : Nat
  second : Nat
  microsecond : Nat
deriving DecidableEq, Repr

/-- Number of days in the given month, with Gregorian leap years,
as enforced by the Python datetime constructor. -/
def daysInMonth (year month : Nat) : Nat :=
  if month = 2 then
    (if year % 4 = 0 ∧ (year % 100 ≠ 0 ∨ year % 400 = 0) then 29 else 28)
  else if month = 4 ∨ month = 6 ∨ month = 9 ∨ month = 11 then 30
  else 31

/-- Field ranges enforced by the Python datetime constructor
(MINYEAR = 1, MAXYEAR = 9999). -/
def DateTime.Valid (t : DateTime) : Prop :=
  1 ≤ t.year ∧ t.year ≤ 9999 ∧ 1 ≤ t.month ∧ t.month ≤ 12 ∧
  1 ≤ t.day ∧ t.day ≤ daysInMonth t.year t.month ∧
  t.hour ≤ 23 ∧ t.minute ≤ 59 ∧ t.second ≤ 59 ∧ t.microsecond ≤ 999999

instance (t : DateTime) : Decidable t.Valid := by
  unfold DateTime.Valid; infer_instance

/-- Positional encoding of a datetime as a natural number.  For valid
datetimes this encoding is strictly monotone in the chronological
(lexicographic field) order, so comparing keys is comparing datetimes;
it models the comparison used by Python when sorting datetime objects. -/
def DateTime.key (t : DateTime) : Nat :=
  (((((t.year * 13 + t.month) * 32 + t.day) * 24 + t.hour) * 60 +
    t.minute) * 60 + t.second) * 1000000 + t.microsecond

/-- Decimal digit character for a value below ten. -/
def digitChar : Nat → Char
  | 0 => '0' | 1 => '1' | 2 => '2' | 3 => '3' | 4 => '4'
  | 5 => '5' | 6 => '6' | 7 => '7' | 8 => '8' | 9 => '9'
  | _ => '*'

/-- Test for an ASCII decimal digit. -/
def isDig (c : Char) : Bool := decide (48 ≤ c.toNat ∧ c.toNat ≤ 57)

/-- Numeric value of an ASCII decimal digit. -/
def digVal (c : Char) : Nat := c.toNat - 48

/-- Two-digit zero-padded decimal rendering (strftime %m, %d, %H, %M, %S). -/
def pad2 (n : Nat) : List Char := [digitChar (n / 10), digitChar (n % 10)]

/-- Four-digit zero-padded decimal rendering (strftime %Y). -/
def pad4 (n : Nat) : List Char :=
  [digitChar (n / 1000), digitChar (n / 100 % 10),
   digitChar (n / 10 % 10), digitChar (n % 10)]

/-- Six-digit zero-padded decimal rendering (strftime %f). -/
def pad6 (n : Nat) : List Char :=
  [digitChar (n / 100000), digitChar (n / 10000 % 10),
   digitChar (n / 1000 % 10), digitChar (n / 100 % 10),
   digitChar (n / 10 % 10), digitChar (n % 10)]

/-- strftime with format %Y-%m-%d (the value of _shuffle_dict for key d). -/
def strftimeDay (t : DateTime) : List Char :=
  pad4 t.year ++ '-' :: pad2 t.month ++ '-' :: pad2 t.day

/-- strftime with format %Y-%m-%d_%H (the value of _shuffle_dict for key H). -/
def strftimeHour (t : DateTime) : List Char :=
  strftimeDay t ++ '_' :: pad2 t.hour

/-- strftime with format %Y-%m-%d_%H:%M (the value of _shuffle_dict for key M). -/
def strftimeMinute (t : DateTime) : List Char :=
  strftimeHour t ++ ':' :: pad2 t.minute

/-- strftime with format %Y-%m-%d_%H:%M:%S (the value of _shuffle_dict for key S). -/
def strftimeSecond (t : DateTime) : List Char :=
  strftimeMinute t ++ ':' :: pad2 t.second

/-- strftime with format %Y-%m-%d_%H:%M:%S.%f, used by
TemporalRecord.serialize and as the value of _shuffle_dict for key f. -/
def strftimeMicro (t : DateTime) : List Char :=
  strftimeSecond t ++ '.' :: pad6 t.microsecond

/-- Parse exactly four decimal digits (the strptime %Y directive). -/
def parse4 : List Char → Option (Nat × List Char)
  | a :: b :: c :: d :: rest =>
    if isDig a ∧ isDig b ∧ isDig c ∧ isDig d then
      some (digVal a * 1000 + digVal b * 100 + digVal c * 10 + digVal d, rest)
    else none
  | _ => none

/-- Parse one or two decimal digits with value between 1 and hi,
preferring two digits, as the strptime directives %m and %d do with
their ordered regular-expression alternations. -/
def parse2Pos (hi : Nat) : List Char → Option (Nat × List Char)
  | a :: b :: rest =>
    if isDig a ∧ isDig b ∧ 1 ≤ digVal a * 10 + digVal b ∧
        digVal a * 10 + digVal b ≤ hi then
      some (digVal a * 10 + digVal b, rest)
    else if isDig a ∧ 1 ≤ digVal a then some (digVal a, b :: rest)
    else none
  | [a] => if isDig a ∧ 1 ≤ digVal a then some (digVal a, []) else none
  | [] => none

/-- Parse one or two decimal digits with value at most hi, preferring
two digits, as the strptime directives %H, %M and %S do with their
ordered regular-expression alternations. -/
def parse2Any (hi : Nat) : List Char → Option (Nat × List Char)
  | a :: b :: rest =>
    if isDig a ∧ isDig b ∧ digVal a * 10 + digVal b ≤ hi then
      some (digVal a * 10 + digVal b, rest)
    else if isDig a then some (digVal a, b :: rest)
    else none
  | [a] => if isDig a then some (digVal a, []) else none
  | [] => none

/-- Consume a required literal character of the format string. -/
def expectChar (c : Char) : List Char → Option (List Char)
  | a :: rest => if a = c then some rest else none
  | [] => none

/-- Greedily take up to n leading digits; returns them and the rest. -/
def takeDigits : Nat → List Char → (List Char × List Char)
  | 0, s => ([], s)
  | n + 1, a :: rest =>
    if isDig a then
      let (ds, r) := takeDigits n rest
      (a :: ds, r)
    else ([], a :: rest)
  | _ + 1, [] => ([], [])

/-- Numeric value of a digit string. -/
def digitsVal (ds : List Char) : Nat := ds.foldl (fun acc c => acc * 10 + digVal c) 0

/-- Parse one to six digits of a strptime %f directive; the digits are
right-padded with zeros to microsecond precision, as CPython does. -/
def parseMicroDigits (s : List Char) : Option (Nat × List Char) :=
  let (ds, rest) := takeDigits 6 s
  if ds.length = 0 then none
  else some (digitsVal ds * 10 ^ (6 - ds.length), rest)

/-- strptime with format %Y-%m-%d_%H:%M:%S.%f: the timestamp parser
used by TemporalRecord.read.  Mirrors the CPython _strptime regular
expression for each directive and the final datetime construction,
which rejects year zero and a day beyond the length of the month. -/
def strptimeMicro (s : List Char) : Option DateTime := do
  let (y, s) ← parse4 s
  let s ← expectChar '-' s
  let (mo, s) ← parse2Pos 12 s
  let s ← expectChar '-' s
  let (d, s) ← parse2Pos 31 s
  let s ← expectChar '_' s
  let (h, s) ← parse2Any 23 s
  let s ← expectChar ':' s
  let (mi, s) ← parse2Any 59 s
  let s ← expectChar ':' s
  let (sec, s) ← parse2Any 59 s
  let s ← expectChar '.' s
  let (f, s) ← parseMicroDigits s
  if s = [] ∧ 1 ≤ y ∧ d ≤ daysInMonth y mo then
    some ⟨y, mo, d, h, mi, sec, f⟩
  else none

/-- A single instance of a timestamped record (class TemporalRecord).
The code field is an opaque token; it is modelled in its string form,
which is how serialize renders it. -/
structure TemporalRecord where
  timestamp : DateTime
  code : List Char
deriving DecidableEq, Repr

/-- String representation of the format (timestamp, code), from
TemporalRecord.serialize: the timestamp is rendered by strftime with
format %Y-%m-%d_%H:%M:%S.%f and the code is inserted verbatim. -/
def TemporalRecord.serialize (r : TemporalRecord) : List Char :=
  '(' :: (strftimeMicro r.timestamp ++ ',' :: ' ' :: r.code ++ [')'])

/-- Split a string on every occurrence of the two-character separator
comma-space, scanning left to right, as the Python expression
input_str[1:-1].split(', ') does. -/
def splitCommaSpace : List Char → List (List Char)
  | [] => [[]]
  | [c] => [[c]]
  | c :: c' :: rest =>
    if c = ',' ∧ c' = ' ' then [] :: splitCommaSpace rest
    else
      match splitCommaSpace (c' :: rest) with
      | f :: fs => (c :: f) :: fs
      | [] => [[c]]

/-- Whether the string contains the substring comma-space. -/
def hasCommaSpace : List Char → Bool
  | [] => false
  | [_] => false
  | c :: c' :: rest =>
    if c = ',' ∧ c' = ' ' then true else hasCommaSpace (c' :: rest)

/-- The portion of the string strictly before its first occurrence of
the substring comma-space (the whole string when there is none). -/
def beforeCommaSpace : List Char → List Char
  | [] => []
  | [c] => [c]
  | c :: c' :: rest =>
    if c = ',' ∧ c' = ' ' then [] else c :: beforeCommaSpace (c' :: rest)

/-- Reads the string representation back into a TemporalRecord, from
the static method TemporalRecord.read: the first and last characters
are stripped unconditionally (input_str[1:-1]), the remainder is split
on comma-space, the first field is parsed by strptime at microsecond
precision and the second field becomes the code.  A strptime failure
(ValueError) or a missing second field (IndexError) is modelled as
none. -/
def TemporalRecord.read (input_str : List Char) : Option TemporalRecord :=
  let input_list := splitCommaSpace ((input_str.drop 1).dropLast)
  match strptimeMicro (input_list.headD []), input_list[1]? with
  | some timestamp, some code => some ⟨timestamp, code⟩
  | _, _ => none

/-- A Python value, covering the fragment relevant to sequencer
metadata: the JSON scalar types, lists, dicts, and an opaque
constructor pyObj standing for any object the json module cannot
serialize. -/
inductive PyVal where
  | pyNone : PyVal
  | pyBool : Bool → PyVal
  | pyInt : Int → PyVal
  | pyStr : List Char → PyVal
  | pyList : List PyVal → PyVal
  | pyDict : List (PyVal × PyVal) → PyVal
  | pyObj : PyVal

/-- Hexadecimal digit character, lower case as the json module emits. -/
def hexDigit : Nat → Char
  | 10 => 'a' | 11 => 'b' | 12 => 'c' | 13 => 'd' | 14 => 'e' | 15 => 'f'
  | n => digitChar n

/-- Four-digit hexadecimal rendering for a \u escape. -/
def hex4 (n : Nat) : List Char :=
  [hexDigit (n / 4096 % 16), hexDigit (n / 256 % 16),
   hexDigit (n / 16 % 16), hexDigit (n % 16)]

/-- The escape sequence the json module (ensure_ascii default) emits
for one character of a string: the two-character escapes for quote,
backslash and common control characters, \u escapes for the remaining
control and non-ASCII characters, and the character itself otherwise. -/
def jsonEscapeChar (c : Char) : List Char :=
  if c = '"' then ['\\', '"']
  else if c = '\\' then ['\\', '\\']
  else if c = '\t' then ['\\', 't']
  else if c = '\n' then ['\\', 'n']
  else if c = '\r' then ['\\', 'r']
  else if c = '\x08' then ['\\', 'b']
  else if c = '\x0c' then ['\\', 'f']
  else if c.toNat < 32 ∨ 127 ≤ c.toNat then
    if c.toNat < 65536 then '\\' :: 'u' :: hex4 c.toNat
    else '\\' :: 'u' :: hex4 (55296 + (c.toNat - 65536) / 1024) ++
         '\\' :: 'u' :: hex4 (56320 + (c.toNat - 65536) % 1024)
  else [c]

/-- JSON string literal: quoted and escaped character by character. -/
def jsonQuote (s : List Char) : List Char :=
  '"' :: s.foldr (fun c acc => jsonEscapeChar c ++ acc) ['"']

/-- Join string fragments with the default json item separator. -/
def joinCommaSpace : List (List Char) → List Char
  | [] => []
  | [x] => x
  | x :: xs => x ++ ',' :: ' ' :: joinCommaSpace xs

/-- The string the json module uses for a dict key: str keys are used
as is, int, bool and None keys are coerced to their JSON text, and any
other key raises TypeError (modelled as none). -/
def jsonKeyChars : PyVal → Option (List Char)
  | PyVal.pyStr s => some s
  | PyVal.pyInt n => some ((toString n).toList)
  | PyVal.pyBool true => some ("true".toList)
  | PyVal.pyBool false => some ("false".toList)
  | PyVal.pyNone => some ("null".toList)
  | _ => none

mutual

/-- The text json.dumps produces for a value with default options
(separators comma-space and colon-space, ensure_ascii, no sort_keys);
none models a TypeError for an unserializable value. -/
def jsonDumpsVal : PyVal → Option (List Char)
  | PyVal.pyNone => some ("null".toList)
  | PyVal.pyBool true => some ("true".toList)
  | PyVal.pyBool false => some ("false".toList)
  | PyVal.pyInt n => some ((toString n).toList)
  | PyVal.pyStr s => some (jsonQuote s)
  | PyVal.pyList xs => do
    let parts ← jsonDumpsList xs
    some ('[' :: joinCommaSpace parts ++ [']'])
  | PyVal.pyDict kvs => do
    let parts ← jsonDumpsEntries kvs
    some ('{' :: joinCommaSpace parts ++ ['}'])
  | PyVal.pyObj => none

/-- Renders each element of a list for jsonDumpsVal. -/
def jsonDumpsList : List PyVal → Option (List (List Char))
  | [] => some []
  | v :: vs => do
    let s ← jsonDumpsVal v
    let ss ← jsonDumpsList vs
    some (s :: ss)

/-- Renders each dict entry, key colon-space value, for jsonDumpsVal. -/
def jsonDumpsEntries : List (PyVal × PyVal) → Option (List (List Char))
  | [] => some []
  | (k, v) :: rest => do
    let ks ← jsonKeyChars k
    let vs ← jsonDumpsVal v
    let ss ← jsonDumpsEntries rest
    some ((jsonQuote ks ++ ':' :: ' ' :: vs) :: ss)

end

/-- Last value stored for a key among later duplicate entries. -/
def lookupLast (k : List Char) : List (List Char × PyVal) → Option PyVal
  | [] => none
  | (k', v) :: rest =>
    match lookupLast k rest with
    | some v' => some v'
    | none => if k' = k then some v else none

/-- Entries whose key differs from k. -/
def removeKey (k : List Char) (l : List (List Char × PyVal)) :
    List (List Char × PyVal) :=
  l.filter (fun kv => kv.1 ≠ k)

/-- Collapse duplicate keys the way parsing a JSON object into a
Python dict does: each key keeps its first position and its last
value. -/
def dedupKeepLast : List (List Char × PyVal) → List (List Char × PyVal)
  | [] => []
  | (k, v) :: rest =>
    (k, (lookupLast k rest).getD v) :: dedupKeepLast (removeKey k rest)
termination_by l => l.length
decreasing_by
  simp only [removeKey, List.length_cons]
  exact Nat.lt_succ_of_le (List.length_filter_le _ _)

mutual

/-- The value json.loads gives back for the text json.dumps produces,
modelling the composite behaviour of the Python json module: scalars
survive unchanged, dict keys are coerced to strings, duplicate keys
collapse to the last value, and an unserializable value yields none
(dumps raises TypeError). -/
def jsonRound : PyVal → Option PyVal
  | PyVal.pyNone => some PyVal.pyNone
  | PyVal.pyBool b => some (PyVal.pyBool b)
  | PyVal.pyInt n => some (PyVal.pyInt n)
  | PyVal.pyStr s => some (PyVal.pyStr s)
  | PyVal.pyList xs => do
    let ys ← jsonRoundList xs
    some (PyVal.pyList ys)
  | PyVal.pyDict kvs => do
    let entries ← jsonRoundEntries kvs
    some (PyVal.pyDict ((dedupKeepLast entries).map
      (fun kv => (PyVal.pyStr kv.1, kv.2))))
  | PyVal.pyObj => none

/-- Round trip of each list element for jsonRound. -/
def jsonRoundList : List PyVal → Option (List PyVal)
  | [] => some []
  | v :: vs => do
    let v' ← jsonRound v
    let vs' ← jsonRoundList vs
    some (v' :: vs')

/-- Round trip of each dict entry for jsonRound: the key is coerced to
its string form and the value is taken around the trip. -/
def jsonRoundEntries : List (PyVal × PyVal) → Option (List (List Char × PyVal))
  | [] => some []
  | (k, v) :: rest => do
    let ks ← jsonKeyChars k
    let v' ← jsonRound v
    let rest' ← jsonRoundEntries rest
    some ((ks, v') :: rest')

end

/-- The supported shuffle levels: the keys of
TemporalSequencer._shuffle_dict. -/
inductive ShuffleLevel where
  | d : ShuffleLevel
  | H : ShuffleLevel
  | M : ShuffleLevel
  | S : ShuffleLevel
  | f : ShuffleLevel
deriving DecidableEq, Repr

/-- The one-character key string of a shuffle level. -/
def levelKey : ShuffleLevel → List Char
  | ShuffleLevel.d => ['d']
  | ShuffleLevel.H => ['H']
  | ShuffleLevel.M => ['M']
  | ShuffleLevel.S => ['S']
  | ShuffleLevel.f => ['f']

/-- The strftime truncation format _shuffle_dict associates with a
shuffle level. -/
def fmtLevel : ShuffleLevel → DateTime → List Char
  | ShuffleLevel.d => strftimeDay
  | ShuffleLevel.H => strftimeHour
  | ShuffleLevel.M => strftimeMinute
  | ShuffleLevel.S => strftimeSecond
  | ShuffleLevel.f => strftimeMicro

/-- The validation at the top of TemporalSequencer.sequence: None is
accepted as no shuffling, a string argument must be one of the keys of
_shuffle_dict, and any other value (a non-key string or a value of a
different type) raises ValueError, modelled as none. -/
def checkShuffleLevel : PyVal → Option (Option ShuffleLevel)
  | PyVal.pyNone => some none
  | PyVal.pyStr s =>
    if s = ['d'] then some (some ShuffleLevel.d)
    else if s = ['H'] then some (some ShuffleLevel.H)
    else if s = ['M'] then some (some ShuffleLevel.M)
    else if s = ['S'] then some (some ShuffleLevel.S)
    else if s = ['f'] then some (some ShuffleLevel.f)
    else none
  | _ => none

/-- Split a string on every occurrence of a one-character separator,
as the Python expression input_str.split(sep) does for the sequencer
separator. -/
def splitOnChar (sep : Char) : List Char → List (List Char)
  | [] => [[]]
  | c :: rest =>
    if c = sep then [] :: splitOnChar sep rest
    else
      match splitOnChar sep rest with
      | f :: fs => (c :: f) :: fs
      | [] => [[c]]

/-- Join strings with a one-character separator between consecutive
elements, as the Python expression sep.join(parts) does. -/
def joinSep (sep : Char) : List (List Char) → List Char
  | [] => []
  | [x] => x
  | x :: y :: ys => x ++ sep :: joinSep sep (y :: ys)

/-- The state of a TemporalSequencer: the record list (self.data), the
metadata dict entries (self.metadata), the separator character
(self.sep), the last granularity applied (self._shuffle_level, None
initially) and the staleness flag (self._sequenced). -/
structure TemporalSequencer where
  data : List TemporalRecord
  metadata : List (PyVal × PyVal)
  sep : Char
  shuffleLevel : Option ShuffleLevel
  sequenced : Bool

/-- The TemporalSequencer constructor: a None metadata argument
becomes an empty dict, a dict argument is stored as given, and any
other value raises ValueError, modelled as none.  The separator
defaults to tab at call sites.  No JSON-serializability check is
performed here. -/
def TemporalSequencer.init (metadata : PyVal) (sep : Char) :
    Option TemporalSequencer :=
  match metadata with
  | PyVal.pyNone => some ⟨[], [], sep, none, false⟩
  | PyVal.pyDict kvs => some ⟨[], kvs, sep, none, false⟩
  | _ => none

/-- TemporalSequencer.add_data: append one record built from the
timestamp and code and clear the sequenced flag. -/
def TemporalSequencer.addData (s : TemporalSequencer) (timestamp : DateTime)
    (code : List Char) : TemporalSequencer :=
  { s with data := s.data ++ [⟨timestamp, code⟩], sequenced := false }

/-- TemporalSequencer.add_temporal_record: append the given record and
clear the sequenced flag. -/
def TemporalSequencer.addTemporalRecord (s : TemporalSequencer)
    (r : TemporalRecord) : TemporalSequencer :=
  { s with data := s.data ++ [r], sequenced := false }

/-- A shuffler models one call of random.shuffle: it permutes a list
in an unspecified way.  Claims quantify over shufflers and assume only
the permutation property where needed. -/
def IsShuffler (sh : List TemporalRecord → List TemporalRecord) : Prop :=
  ∀ l, (sh l).Perm l

/-- The comparison used by self.data.sort(key=lambda x: x.timestamp,
reverse=reverse): ascending datetime order, flipped when reverse is
true.  CPython sorting is stable also under reverse=True, which flips
only the comparison of unequal keys. -/
def timeLe (reverse : Bool) (a b : TemporalRecord) : Prop :=
  if reverse then b.timestamp.key ≤ a.timestamp.key
  else a.timestamp.key ≤ b.timestamp.key

instance (reverse : Bool) (a b : TemporalRecord) :
    Decidable (timeLe reverse a b) := by
  unfold timeLe; split <;> infer_instance

/-- The stable sort performed by self.data.sort(key=lambda x:
x.timestamp, reverse=reverse).  CPython list.sort is a stable sort, so
its output is the unique sorted stable permutation; insertionSort is
such a sort, hence an exact model of the observable result. -/
def sortData (reverse : Bool) (l : List TemporalRecord) :
    List TemporalRecord :=
  l.insertionSort (timeLe reverse)

/-- The grouping and shuffling loop of TemporalSequencer.sequence for
a non-None shuffle level: walking the sorted records, whenever the
timestamp formatted at the level changes (the first record always
differs from the initial None), the pending group is shuffled and
flushed to the output and a fresh group is started; the current record
is then appended to the pending group.  As in the source, the loop
ends without flushing the final pending group. -/
def groupLoop (fmt : DateTime → List Char)
    (sh : List TemporalRecord → List TemporalRecord) :
    List TemporalRecord → Option (List Char) → List TemporalRecord →
    List TemporalRecord → List TemporalRecord
  | [], _, _, acc => acc
  | r :: rest, cur, grp, acc =>
    let nd := fmt r.timestamp
    if some nd ≠ cur then
      groupLoop fmt sh rest (some nd) [r] (acc ++ sh grp)
    else
      groupLoop fmt sh rest cur (grp ++ [r]) acc

/-- TemporalSequencer.sequence after granularity validation: record
the requested level in self._shuffle_level, stable-sort by timestamp
with the requested direction, run the grouping loop when the level is
not None, and set self._sequenced. -/
def TemporalSequencer.sequence (sh : List TemporalRecord → List TemporalRecord)
    (level : Option ShuffleLevel) (reverse : Bool) (s : TemporalSequencer) :
    TemporalSequencer :=
  let sorted := sortData reverse s.data
  let newData :=
    match level with
    | none => sorted
    | some lv => groupLoop (fmtLevel lv) sh sorted none [] []
  { s with data := newData, shuffleLevel := level, sequenced := true }

/-- TemporalSequencer.sequence including the granularity validation at
its head: an invalid shuffle_level argument raises ValueError,
modelled as none. -/
def TemporalSequencer.sequenceChecked
    (sh : List TemporalRecord → List TemporalRecord) (arg : PyVal)
    (reverse : Bool) (s : TemporalSequencer) : Option TemporalSequencer :=
  match checkShuffleLevel arg with
  | none => none
  | some level => some (s.sequence sh level reverse)

/-- The lazy re-sequencing step at the top of
TemporalSequencer.serialize: sequence runs again exactly when the
sequencer is not currently sequenced or the stored granularity differs
from the requested one; the reverse flag is not compared. -/
def TemporalSequencer.serializeState
    (sh : List TemporalRecord → List TemporalRecord)
    (level : Option ShuffleLevel) (reverse : Bool) (s : TemporalSequencer) :
    TemporalSequencer :=
  if s.sequenced = false ∨ s.shuffleLevel ≠ level then
    s.sequence sh level reverse
  else s

/-- TemporalSequencer.serialize: after the lazy re-sequencing step,
the output is the JSON dump of the metadata, the separator, and the
serialized records joined by the separator; a metadata value the json
module cannot serialize raises TypeError, modelled as none.  Returns
the output text together with the post-call sequencer state. -/
def TemporalSequencer.serialize
    (sh : List TemporalRecord → List TemporalRecord)
    (level : Option ShuffleLevel) (reverse : Bool) (s : TemporalSequencer) :
    Option (List Char × TemporalSequencer) :=
  let s' := s.serializeState sh level reverse
  match jsonDumpsVal (PyVal.pyDict s'.metadata) with
  | none => none
  | some mstr =>
    some (mstr ++ s'.sep :: joinSep s'.sep (s'.data.map TemporalRecord.serialize), s')

/-- The record-reading loop of TemporalSequencer.read: parse each
remaining field with TemporalRecord.read, failing on the first
unparsable field. -/
def readRecords : List (List Char) → Option (List TemporalRecord)
  | [] => some []
  | f :: rest =>
    match TemporalRecord.read f, readRecords rest with
    | some r, some rs => some (r :: rs)
    | _, _ => none

/-- The static method TemporalSequencer.read, parametrised by a loads
function modelling json.loads on the metadata field (the json module
is external to the repository): split the input on the separator, JSON
decode the first field, build a sequencer from it via the constructor,
append every remaining field as a parsed record, and finally mark the
sequencer as sequenced.  Any failure (undecodable metadata, a
constructor ValueError on non-dict metadata, an unparsable record
field) is modelled as none. -/
def TemporalSequencer.read (loads : List Char → Option PyVal)
    (input_str : List Char) (sep : Char) : Option TemporalSequencer := do
  let input_list := splitOnChar sep input_str
  let metadata ← loads (input_list.headD [])
  let s ← TemporalSequencer.init metadata sep
  let recs ← readRecords input_list.tail
  some { s with data := recs, sequenced := true }

/-- Whether a Python value is a JSON scalar: None, a bool, an int or a
string. -/
def PyVal.isScalar : PyVal → Bool
  | PyVal.pyNone => true
  | PyVal.pyBool _ => true
  | PyVal.pyInt _ => true
  | PyVal.pyStr _ => true
  | _ => false

theorem digit_ok : ∀ n, n < 10 →
    isDig (digitChar n) = true ∧ digVal (digitChar n) = n := by decide

theorem parse4_pad4 (y : Nat) (hy : y < 10000) (rest : List Char) :
    parse4 (pad4 y ++ rest) = some (y, rest) := by
  have h1 : y / 1000 < 10 := by omega
  have h2 : y / 100 % 10 < 10 := Nat.mod_lt _ (by norm_num)
  have h3 : y / 10 % 10 < 10 := Nat.mod_lt _ (by norm_num)
  have h4 : y % 10 < 10 := Nat.mod_lt _ (by norm_num)
  simp only [pad4, List.cons_append, List.nil_append, parse4,
    (digit_ok _ h1).1, (digit_ok _ h2).1, (digit_ok _ h3).1, (digit_ok _ h4).1,
    (digit_ok _ h1).2, (digit_ok _ h2).2, (digit_ok _ h3).2, (digit_ok _ h4).2,
    and_self, if_true]
  have hv : y / 1000 * 1000 + y / 100 % 10 * 100 + y / 10 % 10 * 10 + y % 10 = y := by
    omega
  rw [hv]

theorem parse2Pos_pad2 (n hi : Nat) (h1 : 1 ≤ n) (h2 : n ≤ hi) (hhi : hi ≤ 99)
    (rest : List Char) : parse2Pos hi (pad2 n ++ rest) = some (n, rest) := by
  have ha : n / 10 < 10 := by omega
  have hb : n % 10 < 10 := Nat.mod_lt _ (by norm_num)
  have hv : n / 10 * 10 + n % 10 = n := by omega
  simp only [pad2, List.cons_append, List.nil_append, parse2Pos,
    (digit_ok _ ha).1, (digit_ok _ hb).1, (digit_ok _ ha).2, (digit_ok _ hb).2, hv]
  rw [if_pos ⟨trivial, trivial, h1, h2⟩]

theorem parse2Any_pad2 (n hi : Nat) (h2 : n ≤ hi) (hhi : hi ≤ 99)
    (rest : List Char) : parse2Any hi (pad2 n ++ rest) = some (n, rest) := by
  have ha : n / 10 < 10 := by omega
  have hb : n % 10 < 10 := Nat.mod_lt _ (by norm_num)
  have hv : n / 10 * 10 + n % 10 = n := by omega
  simp only [pad2, List.cons_append, List.nil_append, parse2Any,
    (digit_ok _ ha).1, (digit_ok _ hb).1, (digit_ok _ ha).2, (digit_ok _ hb).2, hv]
  rw [if_pos ⟨trivial, trivial, h2⟩]

theorem parseMicro_pad6 (f : Nat) (hf : f < 1000000) :
    parseMicroDigits (pad6 f) = some (f, []) := by
  have h1 : f / 100000 < 10 := by omega
  have h2 : f / 10000 % 10 < 10 := Nat.mod_lt _ (by norm_num)
  have h3 : f / 1000 % 10 < 10 := Nat.mod_lt _ (by norm_num)
  have h4 : f / 100 % 10 < 10 := Nat.mod_lt _ (by norm_num)
  have h5 : f / 10 % 10 < 10 := Nat.mod_lt _ (by norm_num)
  have h6 : f % 10 < 10 := Nat.mod_lt _ (by norm_num)
  simp only [parseMicroDigits, pad6, takeDigits,
    (digit_ok _ h1).1, (digit_ok _ h2).1, (digit_ok _ h3).1,
    (digit_ok _ h4).1, (digit_ok _ h5).1, (digit_ok _ h6).1,
    if_true, digitsVal, List.foldl,
    (digit_ok _ h1).2, (digit_ok _ h2).2, (digit_ok _ h3).2,
    (digit_ok _ h4).2, (digit_ok _ h5).2, (digit_ok _ h6).2]
  norm_num
  omega

theorem strftimeMicro_eq (t : DateTime) :
    strftimeMicro t =
      pad4 t.year ++ '-' :: (pad2 t.month ++ '-' :: (pad2 t.day ++
        '_' :: (pad2 t.hour ++ ':' :: (pad2 t.minute ++
        ':' :: (pad2 t.second ++ '.' :: pad6 t.microsecond))))) := by
  simp [strftimeMicro, strftimeSecond, strftimeMinute, strftimeHour,
    strftimeDay, List.append_assoc]

theorem expectChar_cons (c : Char) (rest : List Char) :
    expectChar c (c :: rest) = some rest := by
  simp [expectChar]

theorem daysInMonth_le31 (y m : Nat) : daysInMonth y m ≤ 31 := by
  unfold daysInMonth
  split
  · split <;> omega
  · split <;> omega

theorem strptime_strftime (t : DateTime) (h : t.Valid) :
    strptimeMicro (strftimeMicro t) = some t := by
  obtain ⟨h1, h2, h3, h4, h5, h6, h7, h8, h9, h10⟩ := h
  have hd : t.day ≤ 31 := le_trans h6 (daysInMonth_le31 t.year t.month)
  rw [strftimeMicro_eq]
  simp only [strptimeMicro, parse4_pad4 t.year (by omega),
    expectChar_cons, Option.bind_eq_bind, Option.some_bind,
    parse2Pos_pad2 t.month 12 h3 h4 (by norm_num),
    parse2Pos_pad2 t.day 31 h5 hd (by norm_num),
    parse2Any_pad2 t.hour 23 h7 (by norm_num),
    parse2Any_pad2 t.minute 59 h8 (by norm_num),
    parse2Any_pad2 t.second 59 h9 (by norm_num),
    parseMicro_pad6 t.microsecond (by omega)]
  rw [if_pos ⟨trivial, h1, h6⟩]

theorem digitChar_ne_comma (n : Nat) : digitChar n ≠ ',' := by
  unfold digitChar
  split <;> decide

theorem comma_not_mem_pad2 (n : Nat) : ',' ∉ pad2 n := by
  simp [pad2]
  exact ⟨fun h => digitChar_ne_comma _ h.symm, fun h => digitChar_ne_comma _ h.symm⟩

theorem comma_not_mem_pad4 (n : Nat) : ',' ∉ pad4 n := by
  simp [pad4]
  refine ⟨?_, ?_, ?_, ?_⟩ <;> exact fun h => digitChar_ne_comma _ h.symm

theorem comma_not_mem_pad6 (n : Nat) : ',' ∉ pad6 n := by
  simp [pad6]
  refine ⟨?_, ?_, ?_, ?_, ?_, ?_⟩ <;> exact fun h => digitChar_ne_comma _ h.symm

theorem comma_not_mem_strftimeMicro (t : DateTime) : ',' ∉ strftimeMicro t := by
  rw [strftimeMicro_eq]
  intro hm
  simp only [List.mem_append, List.mem_cons] at hm
  rcases hm with h | h | h | h | h | h | h | h | h | h | h | h | h
  · exact comma_not_mem_pad4 _ h
  · cases h
  · exact comma_not_mem_pad2 _ h
  · cases h
  · exact comma_not_mem_pad2 _ h
  · cases h
  · exact comma_not_mem_pad2 _ h
  · cases h
  · exact comma_not_mem_pad2 _ h
  · cases h
  · exact comma_not_mem_pad2 _ h
  · cases h
  · exact comma_not_mem_pad6 _ h

theorem hasCommaSpace_of_no_comma : ∀ (l : List Char), ',' ∉ l →
    hasCommaSpace l = false
  | [], _ => rfl
  | [_], _ => rfl
  | c :: c' :: rest, h => by
    rw [hasCommaSpace, if_neg (fun hand : c = ',' ∧ c' = ' ' =>
      h (hand.1 ▸ List.mem_cons_self c (c' :: rest)))]
    exact hasCommaSpace_of_no_comma (c' :: rest)
      (fun hm => h (List.mem_cons_of_mem c hm))

theorem splitCommaSpace_ne_nil : ∀ (l : List Char), splitCommaSpace l ≠ []
  | [] => by simp [splitCommaSpace]
  | [c] => by simp [splitCommaSpace]
  | c :: c' :: rest => by
    rw [splitCommaSpace]
    split
    · simp
    · split <;> simp

theorem splitCommaSpace_of_no : ∀ (l : List Char), hasCommaSpace l = false →
    splitCommaSpace l = [l]
  | [], _ => rfl
  | [_], _ => rfl
  | c :: c' :: rest, h => by
    rw [hasCommaSpace] at h
    by_cases hcc : c = ',' ∧ c' = ' '
    · rw [if_pos hcc] at h
      cases h
    · rw [if_neg hcc] at h
      rw [splitCommaSpace, if_neg hcc, splitCommaSpace_of_no (c' :: rest) h]

theorem splitCommaSpace_append : ∀ (a b : List Char), hasCommaSpace a = false →
    splitCommaSpace (a ++ ',' :: ' ' :: b) = a :: splitCommaSpace b
  | [], b, _ => by
    rw [List.nil_append, splitCommaSpace, if_pos ⟨rfl, rfl⟩]
  | [c], b, h => by
    have hcc : ¬(c = ',' ∧ (',' : Char) = ' ') := fun hand => by cases hand.2
    rw [List.cons_append, List.nil_append, splitCommaSpace, if_neg hcc,
      splitCommaSpace, if_pos ⟨rfl, rfl⟩]
  | c :: c' :: rest, b, h => by
    rw [hasCommaSpace] at h
    by_cases hcc : c = ',' ∧ c' = ' '
    · rw [if_pos hcc] at h
      cases h
    · rw [if_neg hcc] at h
      have IH := splitCommaSpace_append (c' :: rest) b h
      simp only [List.cons_append] at IH ⊢
      rw [splitCommaSpace, if_neg hcc, IH]

theorem splitCommaSpace_headD : ∀ (l : List Char),
    (splitCommaSpace l).headD [] = beforeCommaSpace l
  | [] => rfl
  | [_] => rfl
  | c :: c' :: rest => by
    rw [splitCommaSpace, beforeCommaSpace]
    by_cases hcc : c = ',' ∧ c' = ' '
    · rw [if_pos hcc, if_pos hcc]
      rfl
    · rw [if_neg hcc, if_neg hcc]
      have IH := splitCommaSpace_headD (c' :: rest)
      cases hs : splitCommaSpace (c' :: rest) with
      | nil => exact absurd hs (splitCommaSpace_ne_nil _)
      | cons f fs =>
        rw [hs] at IH
        simp only [List.headD_cons] at IH
        simp [IH]

theorem splitCommaSpace_two_le : ∀ (l : List Char),
    2 ≤ (splitCommaSpace l).length ↔ hasCommaSpace l = true
  | [] => by simp [splitCommaSpace, hasCommaSpace]
  | [c] => by simp [splitCommaSpace, hasCommaSpace]
  | c :: c' :: rest => by
    rw [splitCommaSpace, hasCommaSpace]
    by_cases hcc : c = ',' ∧ c' = ' '
    · rw [if_pos hcc, if_pos hcc]
      have := splitCommaSpace_ne_nil rest
      simp only [List.length_cons, iff_true]
      cases hs : splitCommaSpace rest with
      | nil => exact absurd hs this
      | cons f fs => simp
    · rw [if_neg hcc, if_neg hcc]
      have IH := splitCommaSpace_two_le (c' :: rest)
      cases hs : splitCommaSpace (c' :: rest) with
      | nil => exact absurd hs (splitCommaSpace_ne_nil _)
      | cons f fs =>
        rw [hs] at IH
        simp only [List.length_cons] at IH ⊢
        exact IH

theorem splitCommaSpace_getZero (l : List Char) :
    (splitCommaSpace l)[0]? = some (beforeCommaSpace l) := by
  have h := splitCommaSpace_headD l
  cases hs : splitCommaSpace l with
  | nil => exact absurd hs (splitCommaSpace_ne_nil _)
  | cons f fs =>
    rw [hs] at h
    simp only [List.headD_cons] at h
    simp [h]

theorem serialize_inner (t : DateTime) (code : List Char) :
    ((TemporalRecord.serialize ⟨t, code⟩).drop 1).dropLast =
      strftimeMicro t ++ ',' :: ' ' :: code := by
  show ((strftimeMicro t ++ ',' :: ' ' :: code ++ [')']).dropLast) = _
  rw [show strftimeMicro t ++ ',' :: ' ' :: code ++ [')'] =
    (strftimeMicro t ++ ',' :: ' ' :: code) ++ [')'] by simp [List.append_assoc]]
  exact List.dropLast_concat

theorem read_serialize_split (t : DateTime) (code : List Char) :
    splitCommaSpace (((TemporalRecord.serialize ⟨t, code⟩).drop 1).dropLast) =
      strftimeMicro t :: splitCommaSpace code := by
  rw [serialize_inner]
  exact splitCommaSpace_append _ _
    (hasCommaSpace_of_no_comma _ (comma_not_mem_strftimeMicro t))

theorem TemporalRecord.read_serialize (r : TemporalRecord)
    (hv : r.timestamp.Valid) (hc : hasCommaSpace r.code = false) :
    TemporalRecord.read r.serialize = some r := by
  obtain ⟨t, code⟩ := r
  rw [TemporalRecord.read, read_serialize_split,
    splitCommaSpace_of_no _ hc]
  simp [strptime_strftime t hv]

theorem TemporalRecord.read_serialize_lossy (r : TemporalRecord)
    (hv : r.timestamp.Valid) (hc : hasCommaSpace r.code = true) :
    TemporalRecord.read r.serialize =
      some ⟨r.timestamp, beforeCommaSpace r.code⟩ := by
  obtain ⟨t, code⟩ := r
  rw [TemporalRecord.read, read_serialize_split]
  simp [strptime_strftime t hv, splitCommaSpace_getZero]

theorem splitOnChar_of_not_mem : ∀ (sep : Char) (l : List Char), sep ∉ l →
    splitOnChar sep l = [l]
  | _, [], _ => rfl
  | sep, c :: rest, h => by
    rw [splitOnChar, if_neg (fun he : c = sep => h (he ▸ List.mem_cons_self c rest)),
      splitOnChar_of_not_mem sep rest (fun hm => h (List.mem_cons_of_mem c hm))]

theorem splitOnChar_append (sep : Char) : ∀ (a b : List Char), sep ∉ a →
    splitOnChar sep (a ++ sep :: b) = a :: splitOnChar sep b
  | [], b, _ => by
    rw [List.nil_append, splitOnChar, if_pos rfl]
  | c :: a', b, h => by
    have IH := splitOnChar_append sep a' b (fun hm => h (List.mem_cons_of_mem c hm))
    simp only [List.cons_append]
    rw [splitOnChar, if_neg (fun he : c = sep => h (he ▸ List.mem_cons_self c a')), IH]

theorem splitOnChar_joinSep (sep : Char) : ∀ (x : List Char) (xs : List (List Char)),
    sep ∉ x → (∀ y ∈ xs, sep ∉ y) →
    splitOnChar sep (joinSep sep (x :: xs)) = x :: xs
  | x, [], hx, _ => by
    rw [joinSep, splitOnChar_of_not_mem sep x hx]
  | x, y :: ys, hx, hys => by
    rw [joinSep, splitOnChar_append sep x _ hx,
      splitOnChar_joinSep sep y ys (hys y (List.mem_cons_self y ys))
        (fun z hz => hys z (List.mem_cons_of_mem y hz))]

instance (reverse : Bool) : IsTotal TemporalRecord (timeLe reverse) := by
  constructor
  intro a b
  cases reverse <;> simp [timeLe] <;> omega

instance (reverse : Bool) : IsTrans TemporalRecord (timeLe reverse) := by
  constructor
  intro a b c
  cases reverse <;> simp [timeLe] <;> omega

theorem filter_orderedInsert_pos {α : Type} (r : α → α → Prop) [DecidableRel r]
    (p : α → Bool) (a : α) :
    ∀ (m : List α), p a = true → (∀ b ∈ m, p b = true → r a b) →
      (m.orderedInsert r a).filter p = a :: m.filter p
  | [], ha, _ => by simp [List.orderedInsert, ha]
  | b :: m, ha, hrel => by
    rw [List.orderedInsert]
    by_cases hr : r a b
    · rw [if_pos hr]
      simp [ha]
    · rw [if_neg hr]
      have hpb : p b = false := by
        cases hpb : p b with
        | true => exact absurd (hrel b (List.mem_cons_self b m) hpb) hr
        | false => rfl
      rw [List.filter_cons_of_neg (by simp [hpb]), List.filter_cons_of_neg (by simp [hpb])]
      exact filter_orderedInsert_pos r p a m ha
        (fun b' hb' => hrel b' (List.mem_cons_of_mem b hb'))

theorem filter_orderedInsert_neg {α : Type} (r : α → α → Prop) [DecidableRel r]
    (p : α → Bool) (a : α) :
    ∀ (m : List α), p a = false →
      (m.orderedInsert r a).filter p = m.filter p
  | [], ha => by simp [List.orderedInsert, ha]
  | b :: m, ha => by
    rw [List.orderedInsert]
    by_cases hr : r a b
    · rw [if_pos hr]
      simp [ha]
    · rw [if_neg hr]
      cases hpb : p b with
      | true =>
        rw [List.filter_cons_of_pos (by simp [hpb]), List.filter_cons_of_pos (by simp [hpb]),
          filter_orderedInsert_neg r p a m ha]
      | false =>
        rw [List.filter_cons_of_neg (by simp [hpb]), List.filter_cons_of_neg (by simp [hpb]),
          filter_orderedInsert_neg r p a m ha]

theorem filter_insertionSort {α : Type} (r : α → α → Prop) [DecidableRel r]
    (p : α → Bool) :
    ∀ (l : List α), (∀ a ∈ l, ∀ b ∈ l, p a = true → p b = true → r a b) →
      (l.insertionSort r).filter p = l.filter p
  | [], _ => rfl
  | a :: l, hrel => by
    rw [List.insertionSort]
    have IH := filter_insertionSort r p l
      (fun x hx y hy => hrel x (List.mem_cons_of_mem a hx) y (List.mem_cons_of_mem a hy))
    cases hpa : p a with
    | true =>
      rw [filter_orderedInsert_pos r p a _ hpa
        (fun b hb hpb => hrel a (List.mem_cons_self a l) b
          (List.mem_cons_of_mem a ((List.mem_insertionSort r).mp hb)) hpa hpb),
        IH, List.filter_cons_of_pos (by simp [hpa])]
    | false =>
      rw [filter_orderedInsert_neg r p a _ hpa, IH,
        List.filter_cons_of_neg (by simp [hpa])]

/-- Claim C1 (code bug witness): sequencing a single record at day
granularity returns an empty record list.  The grouping loop of
TemporalSequencer.sequence never flushes its final pending group, so
the last run of every shuffled sequencing is silently dropped,
contradicting the claim that the shuffle is a permutation of each run
with no record lost. -/
theorem claim1_last_run_dropped :
    (TemporalSequencer.sequence id (some ShuffleLevel.d) false
      ⟨[⟨⟨2020, 1, 1, 8, 0, 0, 0⟩, ['A']⟩], [], '\t', none, false⟩).data = [] := by
  rfl

/-- Claim C8: serialize on a sequencer with zero records, metadata
mapping the key pat_id to 1 and separator tab returns exactly the JSON
dump of the metadata followed by a single tab, with nothing after the
trailing separator. -/
theorem claim8_empty_serialize :
    (TemporalSequencer.serialize id none false
      ⟨[], [(PyVal.pyStr ("pat_id".toList), PyVal.pyInt 1)], '\t', none, false⟩).map
        Prod.fst = some ("\x7b\"pat_id\": 1\x7d\t".toList) := by
  rfl

/-- Claim C9: adding a record (add_temporal_record, or add_data which
is the same with the record built from its two arguments) appends
exactly one record at the end of the record list, clears the sequenced
flag and leaves metadata, separator, shuffle level and the previous
records unchanged; consequently the next serialize re-runs sequence,
whatever granularity and direction it is given. -/
theorem claim9_add (s : TemporalSequencer) (r : TemporalRecord) (t : DateTime)
    (c : List Char) (sh : List TemporalRecord → List TemporalRecord)
    (g : Option ShuffleLevel) (reverse : Bool) :
    (s.addTemporalRecord r).data = s.data ++ [r] ∧
    (s.addTemporalRecord r).sequenced = false ∧
    (s.addTemporalRecord r).metadata = s.metadata ∧
    (s.addTemporalRecord r).sep = s.sep ∧
    (s.addTemporalRecord r).shuffleLevel = s.shuffleLevel ∧
    s.addData t c = s.addTemporalRecord ⟨t, c⟩ ∧
    TemporalSequencer.serializeState sh g reverse (s.addTemporalRecord r) =
      TemporalSequencer.sequence sh g reverse (s.addTemporalRecord r) := by
  refine ⟨rfl, rfl, rfl, rfl, rfl, rfl, ?_⟩
  have h : (s.addTemporalRecord r).sequenced = false := rfl
  unfold TemporalSequencer.serializeState
  rw [if_pos (Or.inl h)]

/-- Claim C5: serialize re-runs sequence exactly when the sequencer is
not marked sequenced or the stored granularity differs from the
requested one (first two conjuncts, one per direction of the iff), and
since the reverse flag is not compared, a serialize with reverse true
immediately following a serialize of the same granularity with reverse
false leaves the sequencer state, and hence the stored record order,
unchanged (third conjunct). -/
theorem claim5_staleness (sh sh' : List TemporalRecord → List TemporalRecord)
    (g : Option ShuffleLevel) (reverse : Bool) (s : TemporalSequencer) :
    (s.sequenced = true ∧ s.shuffleLevel = g →
      TemporalSequencer.serializeState sh g reverse s = s) ∧
    (s.sequenced = false ∨ s.shuffleLevel ≠ g →
      TemporalSequencer.serializeState sh g reverse s =
        TemporalSequencer.sequence sh g reverse s) ∧
    TemporalSequencer.serializeState sh' g true
        (TemporalSequencer.serializeState sh g false s) =
      TemporalSequencer.serializeState sh g false s := by
  refine ⟨?_, ?_, ?_⟩
  · rintro ⟨h1, h2⟩
    unfold TemporalSequencer.serializeState
    rw [if_neg (by simp [h1, h2])]
  · intro h
    unfold TemporalSequencer.serializeState
    rw [if_pos h]
  · by_cases hc : s.sequenced = false ∨ s.shuffleLevel ≠ g
    · have h1 : TemporalSequencer.serializeState sh g false s =
          TemporalSequencer.sequence sh g false s := by
        unfold TemporalSequencer.serializeState
        rw [if_pos hc]
      rw [h1]
      unfold TemporalSequencer.serializeState
      rw [if_neg (by simp [TemporalSequencer.sequence])]
    · have h1 : TemporalSequencer.serializeState sh g false s = s := by
        unfold TemporalSequencer.serializeState
        rw [if_neg hc]
      rw [h1]
      unfold TemporalSequencer.serializeState
      rw [if_neg hc]

/-- Concrete instantiation of the staleness characterisation at an
already-sequenced state and at a stale state. -/
theorem claim5_witness :
    TemporalSequencer.serializeState id (some ShuffleLevel.d) true
        ⟨[], [], '\t', some ShuffleLevel.d, true⟩ =
      ⟨[], [], '\t', some ShuffleLevel.d, true⟩ ∧
    TemporalSequencer.serializeState id (some ShuffleLevel.d) true
        ⟨[], [], '\t', none, true⟩ =
      TemporalSequencer.sequence id (some ShuffleLevel.d) true
        ⟨[], [], '\t', none, true⟩ :=
  ⟨(claim5_staleness id id (some ShuffleLevel.d) true _).1 ⟨rfl, rfl⟩,
   (claim5_staleness id id (some ShuffleLevel.d) true _).2.1 (Or.inr (by simp))⟩

/-- Claim C6: sequence always accepts a None granularity, and fails
with ValueError (the InvalidArgument of the specification) on every
non-None argument outside the supported key set, whether it is a
non-key string or a value of any other type. -/
theorem claim6_granularity (sh : List TemporalRecord → List TemporalRecord)
    (reverse : Bool) (s : TemporalSequencer) (v : PyVal) :
    TemporalSequencer.sequenceChecked sh PyVal.pyNone reverse s =
      some (TemporalSequencer.sequence sh none reverse s) ∧
    ((v ≠ PyVal.pyNone ∧ ∀ lv : ShuffleLevel, v ≠ PyVal.pyStr (levelKey lv)) →
      TemporalSequencer.sequenceChecked sh v reverse s = none) := by
  constructor
  · rfl
  · rintro ⟨hn, hk⟩
    unfold TemporalSequencer.sequenceChecked
    suffices h : checkShuffleLevel v = none by rw [h]
    cases v with
    | pyNone => exact absurd rfl hn
    | pyStr cs =>
      have h1 : cs ≠ ['d'] := fun he => hk ShuffleLevel.d (by rw [he]; rfl)
      have h2 : cs ≠ ['H'] := fun he => hk ShuffleLevel.H (by rw [he]; rfl)
      have h3 : cs ≠ ['M'] := fun he => hk ShuffleLevel.M (by rw [he]; rfl)
      have h4 : cs ≠ ['S'] := fun he => hk ShuffleLevel.S (by rw [he]; rfl)
      have h5 : cs ≠ ['f'] := fun he => hk ShuffleLevel.f (by rw [he]; rfl)
      simp [checkShuffleLevel, h1, h2, h3, h4, h5]
    | pyBool b => rfl
    | pyInt n => rfl
    | pyList xs => rfl
    | pyDict kvs => rfl
    | pyObj => rfl

/-- Concrete instantiation of granularity validation: the string bogus
is rejected. -/
theorem claim6_witness :
    TemporalSequencer.sequenceChecked id (PyVal.pyStr ("bogus".toList)) false
      ⟨[], [], '\t', none, false⟩ = none :=
  (claim6_granularity id false ⟨[], [], '\t', none, false⟩
      (PyVal.pyStr ("bogus".toList))).2
    ⟨fun he => PyVal.noConfusion he,
     fun lv he => by cases lv <;> exact absurd (PyVal.pyStr.inj he) (by decide)⟩

/-- Claim C4: after sequence with no shuffling the records are sorted
by timestamp, ascending for reverse false and descending for reverse
true; records with equal timestamps keep their previous relative
order (the filter at any fixed timestamp key is unchanged); and the
result does not depend on the shuffler, so no randomization occurs. -/
theorem claim4_sequence_none (sh sh' : List TemporalRecord → List TemporalRecord)
    (s : TemporalSequencer) (reverse : Bool) (k : Nat) :
    ((TemporalSequencer.sequence sh none false s).data).Sorted (timeLe false) ∧
    ((TemporalSequencer.sequence sh none true s).data).Sorted (timeLe true) ∧
    (TemporalSequencer.sequence sh none reverse s).data.filter
        (fun r => r.timestamp.key == k) =
      s.data.filter (fun r => r.timestamp.key == k) ∧
    TemporalSequencer.sequence sh none reverse s =
      TemporalSequencer.sequence sh' none reverse s := by
  refine ⟨?_, ?_, ?_, rfl⟩
  · exact List.sorted_insertionSort (timeLe false) s.data
  · exact List.sorted_insertionSort (timeLe true) s.data
  · show (sortData reverse s.data).filter _ = _
    exact filter_insertionSort (timeLe reverse) _ s.data
      (fun a _ b _ ha hb => by
        have ha' : a.timestamp.key = k := by simpa using ha
        have hb' : b.timestamp.key = k := by simpa using hb
        cases reverse <;> simp [timeLe, ha', hb'])

theorem splitCommaSpace_get1_none (l : List Char) :
    (splitCommaSpace l)[1]? = none ↔ hasCommaSpace l = false := by
  have h2 := splitCommaSpace_two_le l
  rw [List.getElem?_eq_none_iff]
  constructor
  · intro h
    cases hcs : hasCommaSpace l with
    | false => rfl
    | true => exact absurd (h2.mpr hcs) (by omega)
  · intro h
    by_contra hlt
    have : 2 ≤ (splitCommaSpace l).length := by omega
    rw [h2.mp this] at h
    cases h

/-- Claim C3 counterexample: an input delimited by square brackets
instead of parentheses is accepted by TemporalRecord.read, refuting
the claim that any input whose surrounding characters are not the
parentheses is rejected. -/
theorem claim3_counterexample :
    TemporalRecord.read ("[2020-01-01_08:30:00.000000, A]".toList) =
      some ⟨⟨2020, 1, 1, 8, 30, 0, 0⟩, ['A']⟩ := by
  decide

/-- Claim C3 as amended: TemporalRecord.read strips the first and last
characters without inspecting them, and fails exactly when the text
before the first comma-space of the stripped remainder does not parse
as a microsecond-precision timestamp or the stripped remainder
contains no comma-space at all (so there is no code field); the
surrounding characters themselves are never validated, as the second
conjunct shows by replacing them arbitrarily. -/
theorem claim3_amended (s inner : List Char) (a b : Char) :
    (TemporalRecord.read s = none ↔
      (strptimeMicro (beforeCommaSpace ((s.drop 1).dropLast)) = none ∨
        hasCommaSpace ((s.drop 1).dropLast) = false)) ∧
    TemporalRecord.read (a :: inner ++ [b]) =
      TemporalRecord.read ('(' :: inner ++ [')']) := by
  constructor
  · rw [TemporalRecord.read]
    rw [splitCommaSpace_headD]
    cases hp : strptimeMicro (beforeCommaSpace ((s.drop 1).dropLast)) with
    | none =>
      cases hq : (splitCommaSpace ((s.drop 1).dropLast))[1]? <;> simp
    | some t =>
      cases hq : (splitCommaSpace ((s.drop 1).dropLast))[1]? with
      | none =>
        constructor
        · intro _
          exact Or.inr ((splitCommaSpace_get1_none _).mp hq)
        · intro _
          rfl
      | some c =>
        constructor
        · intro h
          cases h
        · rintro (h | h)
          · cases h
          · have hn := (splitCommaSpace_get1_none _).mpr h
            rw [hq] at hn
            cases hn
  · have hd1 : (a :: inner ++ [b]).drop 1 = inner ++ [b] := rfl
    have hd2 : ('(' :: inner ++ [')']).drop 1 = inner ++ [')'] := rfl
    rw [TemporalRecord.read, TemporalRecord.read, hd1, hd2,
      List.dropLast_concat, List.dropLast_concat]

theorem beforeCommaSpace_lt : ∀ (l : List Char), hasCommaSpace l = true →
    (beforeCommaSpace l).length < l.length
  | [], h => by cases h
  | [_], h => by cases h
  | c :: c' :: rest, h => by
    rw [hasCommaSpace] at h
    rw [beforeCommaSpace]
    by_cases hcc : c = ',' ∧ c' = ' '
    · rw [if_pos hcc]
      simp
    · rw [if_neg hcc] at h ⊢
      have IH := beforeCommaSpace_lt (c' :: rest) h
      simp only [List.length_cons] at IH ⊢
      omega

/-- Claim C10: for a record whose code contains the substring
comma-space, reading back its serialisation yields a record carrying
only the portion of the code before the first comma-space, a strict
truncation, so the record-level round trip silently loses data even
though the code contains neither a closing parenthesis nor the
separator. -/
theorem claim10_code_truncated (r : TemporalRecord) (hv : r.timestamp.Valid)
    (hc : hasCommaSpace r.code = true) :
    TemporalRecord.read r.serialize =
      some ⟨r.timestamp, beforeCommaSpace r.code⟩ ∧
    beforeCommaSpace r.code ≠ r.code := by
  refine ⟨TemporalRecord.read_serialize_lossy r hv hc, fun he => ?_⟩
  have hlt := beforeCommaSpace_lt r.code hc
  rw [he] at hlt
  omega

/-- Concrete instantiation of the code truncation round trip. -/
theorem claim10_witness :
    TemporalRecord.read
        (TemporalRecord.serialize ⟨⟨2020, 1, 1, 8, 0, 0, 0⟩, "a, b".toList⟩) =
      some ⟨⟨2020, 1, 1, 8, 0, 0, 0⟩, ['a']⟩ ∧
    (['a'] : List Char) ≠ "a, b".toList := by
  have h := claim10_code_truncated ⟨⟨2020, 1, 1, 8, 0, 0, 0⟩, "a, b".toList⟩
    (by decide) (by decide)
  exact ⟨h.1.trans (by decide), by decide⟩

/-- Claim C7 counterexample: a dict metadata value holding an object
the json module cannot serialize passes the constructor (which only
checks that the argument is a dict), yet does not survive a JSON round
trip, refuting the claim that non-JSON-representable metadata fails at
construction time. -/
theorem claim7_counterexample :
    (TemporalSequencer.init
        (PyVal.pyDict [(PyVal.pyStr ("a".toList), PyVal.pyObj)]) '\t').isSome =
      true ∧
    jsonRound (PyVal.pyDict [(PyVal.pyStr ("a".toList), PyVal.pyObj)]) = none := by
  constructor
  · rfl
  · simp [jsonRound, jsonRoundEntries, jsonKeyChars]

theorem jsonRound_scalar (v : PyVal) (h : v.isScalar = true) :
    jsonRound v = some v := by
  cases v with
  | pyNone => rfl
  | pyBool b => rfl
  | pyInt n => rfl
  | pyStr s => rfl
  | pyList xs => exact Bool.noConfusion h
  | pyDict kvs => exact Bool.noConfusion h
  | pyObj => exact Bool.noConfusion h

theorem jsonRoundEntries_scalar :
    ∀ (skvs : List (List Char × PyVal)),
      (∀ kv ∈ skvs, (kv.2).isScalar = true) →
      jsonRoundEntries (skvs.map fun kv => (PyVal.pyStr kv.1, kv.2)) = some skvs
  | [], _ => rfl
  | (k, v) :: rest, h => by
    rw [List.map_cons, jsonRoundEntries,
      jsonRound_scalar v (h (k, v) (List.mem_cons_self _ _)),
      jsonRoundEntries_scalar rest (fun kv hkv => h kv (List.mem_cons_of_mem _ hkv))]
    simp [jsonKeyChars]

theorem lookupLast_eq_none (k : List Char) :
    ∀ (l : List (List Char × PyVal)), k ∉ l.map Prod.fst →
      lookupLast k l = none
  | [], _ => rfl
  | (k', v) :: rest, h => by
    rw [lookupLast, lookupLast_eq_none k rest (fun hm => h (List.mem_cons_of_mem _ hm))]
    rw [if_neg (fun he : k' = k => h (he ▸ List.mem_cons_self _ _))]

theorem removeKey_eq_self (k : List Char) (l : List (List Char × PyVal))
    (h : k ∉ l.map Prod.fst) : removeKey k l = l := by
  rw [removeKey, List.filter_eq_self]
  intro kv hkv
  simp only [decide_eq_true_eq]
  exact fun he => h (he ▸ List.mem_map_of_mem Prod.fst hkv)

theorem dedupKeepLast_nodup :
    ∀ (l : List (List Char × PyVal)), (l.map Prod.fst).Nodup →
      dedupKeepLast l = l
  | [], _ => by rw [dedupKeepLast]
  | (k, v) :: rest, h => by
    rw [List.map_cons, List.nodup_cons] at h
    rw [dedupKeepLast, lookupLast_eq_none k rest h.1, removeKey_eq_self k rest h.1,
      dedupKeepLast_nodup rest h.2]
    rfl

/-- Claim C7 as amended: the constructor accepts exactly None or a
dict of any content, so JSON-serializability is not validated at
construction; and metadata that is a flat string-keyed mapping of
distinct keys to JSON scalars does round-trip through the json module
without loss. -/
theorem claim7_amended (m : PyVal) (sep : Char)
    (skvs : List (List Char × PyVal))
    (hnd : (skvs.map Prod.fst).Nodup)
    (hsc : ∀ kv ∈ skvs, (kv.2).isScalar = true) :
    ((TemporalSequencer.init m sep).isSome = true ↔
      (m = PyVal.pyNone ∨ ∃ kvs, m = PyVal.pyDict kvs)) ∧
    jsonRound (PyVal.pyDict (skvs.map fun kv => (PyVal.pyStr kv.1, kv.2))) =
      some (PyVal.pyDict (skvs.map fun kv => (PyVal.pyStr kv.1, kv.2))) := by
  constructor
  · cases m <;> simp [TemporalSequencer.init]
  · rw [jsonRound, jsonRoundEntries_scalar skvs hsc]
    simp only [Option.bind_eq_bind, Option.some_bind]
    rw [dedupKeepLast_nodup skvs hnd]

/-- Concrete instantiation of the constructor characterisation and of
the flat scalar metadata round trip. -/
theorem claim7_witness :
    ((TemporalSequencer.init PyVal.pyNone '\t').isSome = true ↔
      (PyVal.pyNone = PyVal.pyNone ∨ ∃ kvs, PyVal.pyNone = PyVal.pyDict kvs)) ∧
    jsonRound (PyVal.pyDict ([(("a".toList : List Char), PyVal.pyInt 2)].map
        fun kv => (PyVal.pyStr kv.1, kv.2))) =
      some (PyVal.pyDict ([(("a".toList : List Char), PyVal.pyInt 2)].map
        fun kv => (PyVal.pyStr kv.1, kv.2))) :=
  claim7_amended PyVal.pyNone '\t' [(("a".toList : List Char), PyVal.pyInt 2)]
    (by simp) (by decide)

theorem readRecords_map :
    ∀ (l : List TemporalRecord),
      (∀ r ∈ l, r.timestamp.Valid ∧ hasCommaSpace r.code = false) →
      readRecords (l.map TemporalRecord.serialize) = some l
  | [], _ => rfl
  | r :: rest, h => by
    rw [List.map_cons, readRecords,
      TemporalRecord.read_serialize r (h r (List.mem_cons_self _ _)).1
        (h r (List.mem_cons_self _ _)).2,
      readRecords_map rest (fun x hx => h x (List.mem_cons_of_mem _ hx))]

/-- Claim C2 counterexample, two refuting instances.  First, zero
records: serialize produces the metadata dump followed by a trailing
separator, and reading that text back fails, because the split leaves
one empty record field that TemporalRecord.read rejects; so the round
trip does not hold in the zero-record case the claim includes.
Second, a sequencer already marked sequenced at granularity None but
holding records out of order (such a state is reachable: read sets
the sequenced flag on whatever order the text carries): serialize
skips re-sequencing, the round trip returns the stored order B, A,
yet the same sequencer after sequence with no shuffling has the
sorted order A, B — so the round trip does not reproduce the order of
sequence(none), forcing the not-yet-sequenced hypothesis of the
amended claim. -/
theorem claim2_counterexample :
    ((TemporalSequencer.serialize id none false ⟨[], [], '\t', none, false⟩).map
        Prod.fst = some ("\x7b\x7d\t".toList) ∧
      TemporalSequencer.read
        (fun cs => if cs = "\x7b\x7d".toList then some (PyVal.pyDict []) else none)
        ("\x7b\x7d\t".toList) '\t' = none) ∧
    ((TemporalSequencer.serialize id none false
        ⟨[⟨⟨2020, 1, 2, 8, 0, 0, 0⟩, ['B']⟩, ⟨⟨2020, 1, 1, 8, 0, 0, 0⟩, ['A']⟩],
          [], '\t', none, true⟩).map
        (fun p => (TemporalSequencer.read
          (fun cs => if cs = "\x7b\x7d".toList then some (PyVal.pyDict []) else none)
          p.1 '\t').map (fun s' => s'.data)) =
      some (some [⟨⟨2020, 1, 2, 8, 0, 0, 0⟩, ['B']⟩,
        ⟨⟨2020, 1, 1, 8, 0, 0, 0⟩, ['A']⟩]) ∧
      (TemporalSequencer.sequence id none false
        ⟨[⟨⟨2020, 1, 2, 8, 0, 0, 0⟩, ['B']⟩, ⟨⟨2020, 1, 1, 8, 0, 0, 0⟩, ['A']⟩],
          [], '\t', none, true⟩).data =
        [⟨⟨2020, 1, 1, 8, 0, 0, 0⟩, ['A']⟩, ⟨⟨2020, 1, 2, 8, 0, 0, 0⟩, ['B']⟩] ∧
      ([⟨⟨2020, 1, 2, 8, 0, 0, 0⟩, ['B']⟩, ⟨⟨2020, 1, 1, 8, 0, 0, 0⟩, ['A']⟩] :
          List TemporalRecord) ≠
        [⟨⟨2020, 1, 1, 8, 0, 0, 0⟩, ['A']⟩, ⟨⟨2020, 1, 2, 8, 0, 0, 0⟩, ['B']⟩]) := by
  exact ⟨⟨rfl, rfl⟩, rfl, rfl, by decide⟩

theorem sep_not_mem_serialize (sep : Char) (r : TemporalRecord)
    (h1 : sep ≠ '(') (h2 : sep ≠ ')') (h3 : sep ≠ ',') (h4 : sep ≠ ' ')
    (h5 : sep ∉ strftimeMicro r.timestamp) (h6 : sep ∉ r.code) :
    sep ∉ TemporalRecord.serialize r := by
  intro hm
  simp only [TemporalRecord.serialize, List.mem_cons, List.mem_append,
    List.mem_singleton] at hm
  rcases hm with h | (h | h | h | h) | h | h
  · exact h1 h
  · exact h5 h
  · exact h3 h
  · exact h4 h
  · exact h6 h
  · exact h2 h
  · exact List.not_mem_nil sep h

theorem serialize_eq (sh : List TemporalRecord → List TemporalRecord)
    (level : Option ShuffleLevel) (reverse : Bool) (s : TemporalSequencer) :
    TemporalSequencer.serialize sh level reverse s =
      match jsonDumpsVal (PyVal.pyDict
          (TemporalSequencer.serializeState sh level reverse s).metadata) with
      | none => none
      | some mstr =>
        some (mstr ++ (TemporalSequencer.serializeState sh level reverse s).sep ::
          joinSep (TemporalSequencer.serializeState sh level reverse s).sep
            ((TemporalSequencer.serializeState sh level reverse s).data.map
              TemporalRecord.serialize),
          TemporalSequencer.serializeState sh level reverse s) := rfl

theorem read_eq (loads : List Char → Option PyVal) (input : List Char)
    (sep : Char) :
    TemporalSequencer.read loads input sep =
      (loads ((splitOnChar sep input).headD [])).bind (fun metadata =>
        (TemporalSequencer.init metadata sep).bind (fun s0 =>
          (readRecords (splitOnChar sep input).tail).bind (fun recs =>
            some ⟨recs, s0.metadata, s0.sep, s0.shuffleLevel, true⟩))) := rfl

/-- Claim C2 as amended: consider a not-yet-sequenced sequencer with
at least one record whose separator is well-formed in the sense of the
specification, spelled out field by field: the metadata JSON dump
succeeds, contains no separator character and is decoded back to the
same dict by the JSON reader; the separator is none of the four
characters of the record framing, opening and closing parenthesis,
comma and space; and every record has a valid timestamp whose rendered
text does not contain the separator and a code containing neither the
separator nor the substring comma-space.  Then reading the
serialization at granularity None yields a sequencer with the same
metadata, the same separator and exactly the record sequence of the
original after sequence with no shuffling.  The zero-record case and
the already-sequenced case are excluded because the counterexample
refutes them, and codes containing comma-space are excluded because
the truncation established for claim C10 refutes exactness for
them. -/
theorem claim2_amended (sh : List TemporalRecord → List TemporalRecord)
    (loads : List Char → Option PyVal) (s : TemporalSequencer) (mj : List Char)
    (hseq : s.sequenced = false) (hne : s.data ≠ [])
    (hjson : jsonDumpsVal (PyVal.pyDict s.metadata) = some mj)
    (hload : loads mj = some (PyVal.pyDict s.metadata))
    (hsepm : s.sep ∉ mj)
    (hframe : s.sep ≠ '(' ∧ s.sep ≠ ')' ∧ s.sep ≠ ',' ∧ s.sep ≠ ' ')
    (hrec : ∀ r ∈ s.data, r.timestamp.Valid ∧
      s.sep ∉ strftimeMicro r.timestamp ∧ s.sep ∉ r.code ∧
      hasCommaSpace r.code = false) :
    TemporalSequencer.serialize sh none false s =
      some (mj ++ s.sep :: joinSep s.sep
          ((TemporalSequencer.sequence sh none false s).data.map
            TemporalRecord.serialize),
        TemporalSequencer.sequence sh none false s) ∧
    TemporalSequencer.read loads
        (mj ++ s.sep :: joinSep s.sep
          ((TemporalSequencer.sequence sh none false s).data.map
            TemporalRecord.serialize)) s.sep =
      some ⟨(TemporalSequencer.sequence sh none false s).data, s.metadata, s.sep,
        none, true⟩ := by
  have hstate : TemporalSequencer.serializeState sh none false s =
      TemporalSequencer.sequence sh none false s := by
    unfold TemporalSequencer.serializeState
    rw [if_pos (Or.inl hseq)]
  have hmeta : (TemporalSequencer.sequence sh none false s).metadata =
      s.metadata := rfl
  have hmem : ∀ r ∈ (TemporalSequencer.sequence sh none false s).data,
      r ∈ s.data := by
    intro r hr
    exact (List.mem_insertionSort (timeLe false)).mp hr
  constructor
  · rw [serialize_eq, hstate, hmeta, hjson]
    rfl
  · cases hm : (TemporalSequencer.sequence sh none false s).data.map
        TemporalRecord.serialize with
    | nil =>
      rw [List.map_eq_nil_iff] at hm
      have hp : (TemporalSequencer.sequence sh none false s).data.Perm s.data :=
        List.perm_insertionSort (timeLe false) s.data
      rw [hm] at hp
      exact absurd hp.symm.eq_nil hne
    | cons x xs =>
      have hall : ∀ y ∈ x :: xs, s.sep ∉ y := by
        rw [← hm]
        intro y hy
        obtain ⟨r, hr, rfl⟩ := List.mem_map.mp hy
        exact sep_not_mem_serialize s.sep r hframe.1 hframe.2.1 hframe.2.2.1
          hframe.2.2.2 (hrec r (hmem r hr)).2.1 (hrec r (hmem r hr)).2.2.1
      have hsplit : splitOnChar s.sep
          (mj ++ s.sep :: joinSep s.sep (x :: xs)) = mj :: x :: xs := by
        rw [splitOnChar_append s.sep mj _ hsepm,
          splitOnChar_joinSep s.sep x xs (hall x (List.mem_cons_self _ _))
            (fun y hy => hall y (List.mem_cons_of_mem _ hy))]
      rw [read_eq, hsplit]
      simp only [List.headD_cons, List.tail_cons]
      rw [hload]
      simp only [Option.some_bind]
      rw [show TemporalSequencer.init (PyVal.pyDict s.metadata) s.sep =
        some ⟨[], s.metadata, s.sep, none, false⟩ from rfl]
      simp only [Option.some_bind]
      rw [← hm, readRecords_map ((TemporalSequencer.sequence sh none false s).data)
        (fun r hr => ⟨(hrec r (hmem r hr)).1, (hrec r (hmem r hr)).2.2.2⟩)]
      simp only [Option.some_bind]

/-- Concrete instantiation of the round trip for a one-record
sequencer with metadata mapping the key a to 1. -/
theorem claim2_witness :
    TemporalSequencer.serialize id none false
      ⟨[⟨⟨2020, 1, 1, 8, 0, 0, 0⟩, ['A']⟩],
        [(PyVal.pyStr ("a".toList), PyVal.pyInt 1)], '\t', none, false⟩ =
      some (("\x7b\"a\": 1\x7d".toList ++ '\t' :: joinSep '\t'
        ((TemporalSequencer.sequence id none false
          ⟨[⟨⟨2020, 1, 1, 8, 0, 0, 0⟩, ['A']⟩],
        [(PyVal.pyStr ("a".toList), PyVal.pyInt 1)], '\t', none, false⟩).data.map TemporalRecord.serialize)),
        TemporalSequencer.sequence id none false
          ⟨[⟨⟨2020, 1, 1, 8, 0, 0, 0⟩, ['A']⟩],
        [(PyVal.pyStr ("a".toList), PyVal.pyInt 1)], '\t', none, false⟩) ∧
    TemporalSequencer.read
        (fun cs => if cs = "\x7b\"a\": 1\x7d".toList then
        some (PyVal.pyDict [(PyVal.pyStr ("a".toList), PyVal.pyInt 1)]) else none)
        ("\x7b\"a\": 1\x7d".toList ++ '\t' :: joinSep '\t'
        ((TemporalSequencer.sequence id none false
          ⟨[⟨⟨2020, 1, 1, 8, 0, 0, 0⟩, ['A']⟩],
        [(PyVal.pyStr ("a".toList), PyVal.pyInt 1)], '\t', none, false⟩).data.map TemporalRecord.serialize)) '\t' =
      some ⟨(TemporalSequencer.sequence id none false
          ⟨[⟨⟨2020, 1, 1, 8, 0, 0, 0⟩, ['A']⟩],
        [(PyVal.pyStr ("a".toList), PyVal.pyInt 1)], '\t', none, false⟩).data,
        [(PyVal.pyStr ("a".toList), PyVal.pyInt 1)], '\t', none, true⟩ :=
  claim2_amended id
    (fun cs => if cs = "\x7b\"a\": 1\x7d".toList then
        some (PyVal.pyDict [(PyVal.pyStr ("a".toList), PyVal.pyInt 1)]) else none)
    ⟨[⟨⟨2020, 1, 1, 8, 0, 0, 0⟩, ['A']⟩],
        [(PyVal.pyStr ("a".toList), PyVal.pyInt 1)], '\t', none, false⟩
    ("\x7b\"a\": 1\x7d".toList) rfl (by decide) rfl rfl (by decide) (by decide)
    (by decide)
